import Mathlib

/-!
Verification of the `port` request-interception layer.

The development shallowly embeds `port.go` at two levels of abstraction:

* A heap model of `cloneRequest`: headers, header-value slices and URLs are
  references into an allocation heap, so that deep-copy and non-aliasing
  properties can be stated and proved.

* A trace-emitting state model of the interceptor itself
  (`RoundTrip`, `setModReq`, `CancelRequest`) and of the tracked response
  body (`onEOFReader`).  Each operation returns the new interceptor state
  together with a list of events (lock/unlock, map operations, the base
  send, the modifier invocation, body closes, callback firings) mirroring
  the order in which the Go source performs them.  External collaborators
  (the modifier outcome, the base transport outcome, the inner body
  stream's results) are parameters.
-/

namespace Port

/-- Go `error` values: a base error message or an error wrapped with context
via `errors.Wrap` (as used at `port.go:64`). -/
inductive GoError where
  | msg (s : String)
  | wrapped (context : String) (inner : GoError)
deriving Repr, DecidableEq

/-- Observable events, in program order, of the interceptor's operations. -/
inductive Ev where
  | lock
  | unlock
  | mapAlloc
  | mapRead (key : Nat)
  | mapWrite (key val : Nat)
  | mapDelete (key : Nat)
  | intercept (clone : Nat)
  | baseSend (clone : Nat)
  | closeBodyByInterceptor
  | closeBodyByBase
  | forwardCancel (modReq : Option Nat)
  | innerRead
  | innerClose
  | callback
deriving Repr, DecidableEq

/-- Remove the binding for `key` from an association list (Go `delete`). -/
def eraseKey (l : List (Nat × Nat)) (key : Nat) : List (Nat × Nat) :=
  l.filter (fun p => p.1 != key)

/-- Insert/overwrite the binding for `key` (Go map assignment). -/
def insertKey (l : List (Nat × Nat)) (key val : Nat) : List (Nat × Nat) :=
  eraseKey l key ++ [(key, val)]

/-- Look up `key` (Go map index; `none` models the zero value `nil`). -/
def lookupKey (l : List (Nat × Nat)) (key : Nat) : Option Nat :=
  (l.find? (fun p => p.1 == key)).map (fun p => p.2)

/-- The interceptor's mutable state: the `modReq` tracking map
(`map[*http.Request]*http.Request`, original -> modified).  Requests are
identified by their pointer identity, modelled as `Nat`.  `none` models the
`nil` (not yet lazily allocated) map. -/
structure RequestIntercepter where
  modReq : Option (List (Nat × Nat))
deriving Repr, DecidableEq

/-- Reading `k.modReq[req]`: a `nil` map reads as empty. -/
def mapLookup (k : RequestIntercepter) (req : Nat) : Option Nat :=
  match k.modReq with
  | none => none
  | some l => lookupKey l req

/-- `len(k.modReq)`: the number of tracked in-flight entries. -/
def mapCount (k : RequestIntercepter) : Nat :=
  (k.modReq.getD []).length

/-- `setModReq` (port.go:119-130): under the mutex, lazily allocate the map
if `nil`, then delete (`mod = nil`) or insert the binding `orig -> mod`. -/
def setModReq (k : RequestIntercepter) (orig : Nat) (mod : Option Nat) :
    RequestIntercepter × List Ev :=
  let l := k.modReq.getD []
  let allocEvs : List Ev := if k.modReq = none then [Ev.mapAlloc] else []
  match mod with
  | none =>
      (⟨some (eraseKey l orig)⟩,
        Ev.lock :: allocEvs ++ [Ev.mapDelete orig, Ev.unlock])
  | some m =>
      (⟨some (insertKey l orig m)⟩,
        Ev.lock :: allocEvs ++ [Ev.mapWrite orig m, Ev.unlock])

/-- The tracked response body (port.go:139-142).  `orig` is the original
request captured by the cleanup closure
`func() { k.setModReq(req, nil) }`; `fn` records whether that closure
reference is still set (`r.fn != nil`). -/
structure onEOFReader where
  orig : Nat
  fn : Bool
deriving Repr, DecidableEq

/-- `runFunc` (port.go:158-163): if the callback is still set, invoke it
(which runs `setModReq orig nil`) and clear the reference. -/
def onEOFReader.runFunc (r : onEOFReader) (k : RequestIntercepter) :
    RequestIntercepter × onEOFReader × List Ev :=
  if r.fn then
    let s := setModReq k r.orig none
    (s.1, ⟨r.orig, false⟩, Ev.callback :: s.2)
  else (k, r, [])

/-- Result of a read on the inner stream: no error, `io.EOF`, or another
error. -/
inductive ReadErr where
  | noErr
  | eof
  | err (e : GoError)
deriving Repr, DecidableEq

/-- Output of `onEOFReader.Read`: new interceptor state, new body state,
the `(n, err)` result returned to the caller, and the event trace. -/
structure ReadOut where
  k : RequestIntercepter
  r : onEOFReader
  n : Nat
  e : ReadErr
  tr : List Ev
deriving Repr, DecidableEq

/-- `Read` (port.go:144-150): delegate to the inner stream (whose result
`(n, e)` is a parameter), and on `io.EOF` run the one-shot callback before
returning the inner result unchanged. -/
def onEOFReader.Read (r : onEOFReader) (k : RequestIntercepter)
    (n : Nat) (e : ReadErr) : ReadOut :=
  if e = ReadErr.eof then
    let s := r.runFunc k
    ⟨s.1, s.2.1, n, e, Ev.innerRead :: s.2.2⟩
  else
    ⟨k, r, n, e, [Ev.innerRead]⟩

/-- Output of `onEOFReader.Close`: new states, the returned error, trace. -/
structure CloseOut where
  k : RequestIntercepter
  r : onEOFReader
  e : Option GoError
  tr : List Ev
deriving Repr, DecidableEq

/-- `Close` (port.go:152-156): close the inner stream first (its error is a
parameter), then run the one-shot callback, then return the inner error. -/
def onEOFReader.Close (r : onEOFReader) (k : RequestIntercepter)
    (e : Option GoError) : CloseOut :=
  let s := r.runFunc k
  ⟨s.1, s.2.1, e, Ev.innerClose :: s.2.2⟩

/-- One caller operation on the tracked body, carrying the inner stream's
result for that operation. -/
inductive BodyOp where
  | read (n : Nat) (e : ReadErr)
  | close (e : Option GoError)
deriving Repr, DecidableEq

/-- An operation that completes the in-flight tracking: an end-of-stream
read or any close. -/
def isCompleting : BodyOp → Bool
  | .read _ ReadErr.eof => true
  | .read _ _ => false
  | .close _ => true

/-- State after running a sequence of body operations. -/
structure BodyOut where
  k : RequestIntercepter
  r : onEOFReader
  tr : List Ev
deriving Repr, DecidableEq

/-- Run one body operation (discarding the value returned to the caller). -/
def bodyStep (k : RequestIntercepter) (r : onEOFReader) : BodyOp → BodyOut
  | .read n e => let o := r.Read k n e; ⟨o.k, o.r, o.tr⟩
  | .close e => let o := r.Close k e; ⟨o.k, o.r, o.tr⟩

/-- Run a sequence of body operations, concatenating their traces. -/
def bodyRun (k : RequestIntercepter) (r : onEOFReader) :
    List BodyOp → BodyOut
  | [] => ⟨k, r, []⟩
  | op :: ops =>
      let o := bodyStep k r op
      let o2 := bodyRun o.k o.r ops
      ⟨o2.k, o2.r, o.tr ++ o2.tr⟩

/-- Output of `RoundTrip`: new interceptor state, the returned
response-or-error (a successful response carries the wrapped body), and
the event trace. -/
structure RTOut where
  k : RequestIntercepter
  res : Except GoError onEOFReader
  tr : List Ev
deriving Repr

/-- `RoundTrip` (port.go:49-82).  `orig` and `clone` are the identities of
the caller's request and of its clone; `hasBody` is `req.Body != nil`;
`modRes` is the modifier's outcome on the clone (`none` = success);
`sendRes` is the base transport's outcome (`none` = success).  On modifier
failure the deferred close of the original body runs (`reqBodyClosed` is
still false) and the wrapped error is returned with no map activity; on
send failure the entry is deleted and the base error returned unmodified;
on success the response body is wrapped in an `onEOFReader` whose callback
deletes the entry.  The base transport is assumed to close the request
body once it runs (comment at port.go:70), recorded as
`Ev.closeBodyByBase`. -/
def RoundTrip (k : RequestIntercepter) (orig clone : Nat) (hasBody : Bool)
    (modRes : Option GoError) (sendRes : Option GoError) : RTOut :=
  match modRes with
  | some e =>
      ⟨k, Except.error (GoError.wrapped "error while intercepting request" e),
        [Ev.intercept clone]
          ++ (if hasBody then [Ev.closeBodyByInterceptor] else [])⟩
  | none =>
      let s1 := setModReq k orig (some clone)
      let sendEvs :=
        [Ev.baseSend clone] ++ (if hasBody then [Ev.closeBodyByBase] else [])
      match sendRes with
      | some e =>
          let s2 := setModReq s1.1 orig none
          ⟨s2.1, Except.error e,
            Ev.intercept clone :: s1.2 ++ sendEvs ++ s2.2⟩
      | none =>
          ⟨s1.1, Except.ok ⟨orig, true⟩,
            Ev.intercept clone :: s1.2 ++ sendEvs⟩

/-- `CancelRequest` (port.go:106-117).  `hasCanceler` is whether the base
transport implements the optional `CancelRequest` capability; only then is
the entry looked up and deleted (under the mutex) and the cancellation
forwarded with the looked-up modified request (possibly `nil`).  A `nil`
map is left `nil` (`delete` on a `nil` Go map is a no-op). -/
def CancelRequest (k : RequestIntercepter) (hasCanceler : Bool) (req : Nat) :
    RequestIntercepter × List Ev :=
  if hasCanceler then
    let modReq := mapLookup k req
    (⟨k.modReq.map (fun l => eraseKey l req)⟩,
      [Ev.lock, Ev.mapRead req, Ev.mapDelete req, Ev.unlock,
        Ev.forwardCancel modReq])
  else (k, [])

/-- Whether an event may occur given the current lock state: map operations
only while the mutex is held; everything else (the modifier invocation,
the base send, body reads/closes, cancel forwarding) only while it is
free. -/
def evAllowed (locked : Bool) : Ev → Bool
  | Ev.lock => !locked
  | Ev.unlock => locked
  | Ev.mapAlloc => locked
  | Ev.mapRead _ => locked
  | Ev.mapWrite _ _ => locked
  | Ev.mapDelete _ => locked
  | _ => !locked

/-- Lock state after an event. -/
def evNext (locked : Bool) : Ev → Bool
  | Ev.lock => true
  | Ev.unlock => false
  | _ => locked

/-- A trace respects the mutex discipline: starting from the given lock
state, every event is allowed and the trace ends with the lock free. -/
def lockOk : Bool → List Ev → Bool
  | locked, [] => !locked
  | locked, e :: rest => evAllowed locked e && lockOk (evNext locked e) rest

/-!
## Heap model of `cloneRequest` (port.go:84-102)

A `url.URL` value, a header map (`http.Header`) and each header value
slice (`[]string`) are mutable structures reached through references.  The
heap holds one allocation list per kind; a reference is an index, and
allocation appends, so existing references are stable.
-/

/-- The fields of a `url.URL` value (the mutable struct copied by
`*r2URL = *r.URL`). -/
structure URLVal where
  scheme : String
  host : String
  path : String
  rawQuery : String
deriving Repr, DecidableEq, Inhabited

/-- The allocation heap: header-value slices (`[]string`), header maps
(`http.Header`, an association of names to slice references), and URL
values. -/
structure Heap where
  slices : List (List String)
  headers : List (List (String × Nat))
  urls : List URLVal
deriving Repr, DecidableEq

/-- Dereference a slice. -/
def getSlice (h : Heap) (i : Nat) : List String := h.slices.getD i []

/-- Dereference a header map. -/
def getHeaderMap (h : Heap) (i : Nat) : List (String × Nat) :=
  h.headers.getD i []

/-- Dereference a URL value. -/
def getURL (h : Heap) (i : Nat) : URLVal := h.urls.getD i default

/-- Allocate a fresh slice holding `v`; returns the new heap and the
reference. -/
def allocSlice (h : Heap) (v : List String) : Heap × Nat :=
  ({ h with slices := h.slices ++ [v] }, h.slices.length)

/-- Allocate a fresh header map holding `v`. -/
def allocHeader (h : Heap) (v : List (String × Nat)) : Heap × Nat :=
  ({ h with headers := h.headers ++ [v] }, h.headers.length)

/-- Allocate a fresh URL value holding `v`. -/
def allocURL (h : Heap) (v : URLVal) : Heap × Nat :=
  ({ h with urls := h.urls ++ [v] }, h.urls.length)

/-- Overwrite the header map at reference `i`. -/
def writeHeaderAt (h : Heap) (i : Nat) (v : List (String × Nat)) : Heap :=
  { h with headers := h.headers.set i v }

/-- The fields of an `http.Request` relevant to `cloneRequest`: the scalar
fields copied as-is by the struct copy `*r2 = *r` (method, protocol
version, cancellation context reference, body stream reference), the
header-map reference (`none` = `nil` map) and the URL reference (`none` =
`nil` pointer). -/
structure Request where
  method : String
  proto : String
  ctx : Nat
  body : Option Nat
  header : Option Nat
  url : Option Nat
deriving Repr, DecidableEq

/-- The entries of `r.Header` as read from the heap; ranging over a `nil`
map yields nothing. -/
def headerEntriesOf (h : Heap) (r : Request) : List (String × Nat) :=
  match r.header with
  | none => []
  | some href => getHeaderMap h href

/-- The observable content of `r`'s header collection: each name paired
with the strings of its value slice. -/
def headerObs (h : Heap) (r : Request) : List (String × List String) :=
  (headerEntriesOf h r).map (fun e => (e.1, getSlice h e.2))

/-- The observable content of `r`'s URL, when present. -/
def urlObs (h : Heap) (r : Request) : Option URLVal := r.url.map (getURL h)

/-- `r`'s references are all live in `h` (always true of requests built by
the Go runtime: a Go pointer is never out of range of its heap). -/
def validReqB (h : Heap) (r : Request) : Bool :=
  (match r.header with
   | none => true
   | some href =>
       decide (href < h.headers.length) &&
         (getHeaderMap h href).all (fun e => decide (e.2 < h.slices.length)))
  && (match r.url with
      | none => true
      | some u => decide (u < h.urls.length))

/-- The loop `for k, s := range r.Header`: for each entry, allocate a fresh
slice holding a copy of the entry's strings
(`append([]string(nil), s...)`). -/
def copyEntries : Heap → List (String × Nat) → Heap × List (String × Nat)
  | h, [] => (h, [])
  | h, kv :: rest =>
      let a := allocSlice h (getSlice h kv.2)
      let c := copyEntries a.1 rest
      (c.1, (kv.1, a.2) :: c.2)

/-- `cloneRequest` (port.go:84-102): shallow-copy the struct
(`*r2 = *r`), give the copy a fresh header map
(`r2.Header = make(http.Header, len(r.Header))`) filled with fresh copies
of each value slice, and, when `r.URL != nil`, a fresh URL value holding a
copy of `*r.URL`. -/
def cloneRequest (h : Heap) (r : Request) : Heap × Request :=
  let a1 := allocHeader h []
  let c := copyEntries a1.1 (headerEntriesOf a1.1 r)
  let h3 := writeHeaderAt c.1 a1.2 c.2
  match r.url with
  | none => (h3, { r with header := some a1.2, url := none })
  | some u =>
      let a2 := allocURL h3 (getURL h3 u)
      (a2.1, { r with header := some a1.2, url := some a2.2 })

/-- A mutation a `RequestModifier` can perform through the clone: overwrite
a header map (e.g. `Header.Set`), overwrite a value slice, or overwrite a
URL value (`*req.URL = ...`). -/
inductive Mutation where
  | header (ref : Nat) (v : List (String × Nat))
  | slice (ref : Nat) (v : List String)
  | url (ref : Nat) (v : URLVal)
deriving Repr

/-- Apply one mutation to the heap (out-of-range writes are no-ops). -/
def applyMut (h : Heap) : Mutation → Heap
  | .header ref v => { h with headers := h.headers.set ref v }
  | .slice ref v => { h with slices := h.slices.set ref v }
  | .url ref v => { h with urls := h.urls.set ref v }

/-- Apply a sequence of mutations. -/
def applyMuts (h : Heap) (ms : List Mutation) : Heap := ms.foldl applyMut h

/-- A mutation whose target reference is fresh relative to heap `h`,
i.e. was allocated after `h` (as every reference reachable from the clone
but not from the original is). -/
def freshMutB (h : Heap) : Mutation → Bool
  | .header ref _ => decide (h.headers.length ≤ ref)
  | .slice ref _ => decide (h.slices.length ≤ ref)
  | .url ref _ => decide (h.urls.length ≤ ref)

/-- The heap `h` agrees with `h₀` on every reference live in `h₀`: reads of
pre-existing references are unaffected. -/
def AgreesBelow (h₀ h : Heap) : Prop :=
  (∀ i, i < h₀.headers.length → getHeaderMap h i = getHeaderMap h₀ i) ∧
  (∀ i, i < h₀.slices.length → getSlice h i = getSlice h₀ i) ∧
  (∀ i, i < h₀.urls.length → getURL h i = getURL h₀ i)

/-! ## List helper lemmas -/

theorem getD_append_self {α : Type _} (l₁ : List α) (v : α) (l₂ : List α)
    (d : α) : (l₁ ++ v :: l₂).getD l₁.length d = v := by
  rw [List.getD_append_right _ _ _ _ (Nat.le_refl _)]
  simp

theorem getD_set_ne {α : Type _} (l : List α) (i j : Nat) (v d : α)
    (h : i ≠ j) : (l.set i v).getD j d = l.getD j d := by
  simp [List.getD_eq_getElem?_getD, List.getElem?_set_ne h]

theorem set_append_len {α : Type _} (l : List α) (a v : α) :
    (l ++ [a]).set l.length v = l ++ [v] := by
  induction l with
  | nil => rfl
  | cons x xs ih => simp [List.set, ih]

/-! ## Association-list (Go map) lemmas -/

theorem lookupKey_eraseKey_self (l : List (Nat × Nat)) (key : Nat) :
    lookupKey (eraseKey l key) key = none := by
  have hf : (eraseKey l key).find? (fun p => p.1 == key) = none := by
    rw [List.find?_eq_none]
    intro x hx
    have hm := (List.mem_filter.1 hx).2
    simpa using hm
  simp [lookupKey, hf]

theorem lookupKey_eraseKey_ne (l : List (Nat × Nat)) (key q : Nat)
    (h : q ≠ key) : lookupKey (eraseKey l key) q = lookupKey l q := by
  induction l with
  | nil => rfl
  | cons p rest ih =>
      by_cases hp : p.1 = key
      · have h1 : (p.1 != key) = false := by simp [hp]
        have h2 : (p.1 == q) = false := by
          simp [hp]
          exact fun hq => h hq.symm
        simp [eraseKey, List.filter_cons, h1, lookupKey, List.find?, h2] at ih ⊢
        exact ih
      · have h1 : (p.1 != key) = true := by simp [hp]
        by_cases hq : p.1 = q
        · have h2 : (p.1 == q) = true := by simp [hq]
          simp [eraseKey, List.filter_cons, h1, lookupKey, List.find?, h2]
        · have h2 : (p.1 == q) = false := by simp [hq]
          simp [eraseKey, List.filter_cons, h1, lookupKey, List.find?, h2]
            at ih ⊢
          exact ih

theorem eraseKey_nil (key : Nat) : eraseKey [] key = [] := rfl

theorem eraseKey_singleton_self (key val : Nat) :
    eraseKey [(key, val)] key = [] := by
  simp [eraseKey, List.filter_cons]

theorem mapCount_zero_cases (k : RequestIntercepter) (h : mapCount k = 0) :
    k.modReq = none ∨ k.modReq = some [] := by
  cases hk : k.modReq with
  | none => exact Or.inl rfl
  | some l =>
      right
      rw [mapCount, hk] at h
      simp at h
      rw [h]

/-! ## `setModReq` lemmas -/

theorem setModReq_insert_fst (k : RequestIntercepter) (orig m : Nat) :
    (setModReq k orig (some m)).1 =
      ⟨some (insertKey (k.modReq.getD []) orig m)⟩ := by
  cases hk : k.modReq <;> simp [setModReq, hk]

theorem setModReq_delete_fst (k : RequestIntercepter) (orig : Nat) :
    (setModReq k orig none).1 =
      ⟨some (eraseKey (k.modReq.getD []) orig)⟩ := by
  cases hk : k.modReq <;> simp [setModReq, hk]

theorem setModReq_tr_delete_count (k : RequestIntercepter) (orig : Nat) :
    (setModReq k orig none).2.count (Ev.mapDelete orig) = 1 := by
  cases hk : k.modReq <;>
    simp [setModReq, hk, List.count_cons, List.count_append]

theorem setModReq_tr_callback_count (k : RequestIntercepter) (orig : Nat)
    (m : Option Nat) : (setModReq k orig m).2.count Ev.callback = 0 := by
  cases hk : k.modReq <;> cases m <;>
    simp [setModReq, hk, List.count_cons, List.count_append]

/-! ## Tracked-body run lemmas -/

/-- The event a body operation always emits (the delegation to the inner
stream), regardless of the callback state. -/
def stepEv : BodyOp → Ev
  | .read _ _ => Ev.innerRead
  | .close _ => Ev.innerClose

theorem count_map_stepEv (ops : List BodyOp) (e : Ev)
    (h1 : e ≠ Ev.innerRead) (h2 : e ≠ Ev.innerClose) :
    (ops.map stepEv).count e = 0 := by
  apply List.count_eq_zero.2
  intro hm
  rcases List.mem_map.1 hm with ⟨op, _, heq⟩
  cases op with
  | read n er => exact h1 heq.symm
  | close er => exact h2 heq.symm

theorem bodyStep_fn_false (k : RequestIntercepter) (r : onEOFReader)
    (op : BodyOp) (h : r.fn = false) : bodyStep k r op = ⟨k, r, [stepEv op]⟩ := by
  cases op with
  | read n e =>
      by_cases he : e = ReadErr.eof <;>
        simp [bodyStep, onEOFReader.Read, onEOFReader.runFunc, stepEv, h, he]
  | close e =>
      simp [bodyStep, onEOFReader.Close, onEOFReader.runFunc, stepEv, h]

theorem bodyRun_fn_false (ops : List BodyOp) (k : RequestIntercepter)
    (r : onEOFReader) (h : r.fn = false) :
    bodyRun k r ops = ⟨k, r, ops.map stepEv⟩ := by
  induction ops generalizing k with
  | nil => rfl
  | cons op rest ih =>
      simp [bodyRun, bodyStep_fn_false k r op h, ih k]

theorem bodyStep_completing (k : RequestIntercepter) (o : Nat) (op : BodyOp)
    (h : isCompleting op = true) :
    bodyStep k ⟨o, true⟩ op =
      ⟨(setModReq k o none).1, ⟨o, false⟩,
        stepEv op :: Ev.callback :: (setModReq k o none).2⟩ := by
  cases op with
  | read n e =>
      cases e with
      | noErr => simp [isCompleting] at h
      | eof => simp [bodyStep, onEOFReader.Read, onEOFReader.runFunc, stepEv]
      | err ge => simp [isCompleting] at h
  | close e =>
      simp [bodyStep, onEOFReader.Close, onEOFReader.runFunc, stepEv]

theorem bodyStep_not_completing (k : RequestIntercepter) (r : onEOFReader)
    (op : BodyOp) (h : isCompleting op = false) :
    bodyStep k r op = ⟨k, r, [stepEv op]⟩ := by
  cases op with
  | read n e =>
      cases e <;> simp [isCompleting] at h <;>
        simp [bodyStep, onEOFReader.Read, onEOFReader.runFunc, stepEv]
  | close e => simp [isCompleting] at h

theorem bodyRun_no_completing (ops : List BodyOp) (k : RequestIntercepter)
    (r : onEOFReader) (h : ops.any isCompleting = false) :
    bodyRun k r ops = ⟨k, r, ops.map stepEv⟩ := by
  induction ops generalizing k r with
  | nil => rfl
  | cons op rest ih =>
      rw [List.any_cons] at h
      have h1 : isCompleting op = false := by
        cases hop : isCompleting op <;> simp [hop] at h ⊢
      have h2 : rest.any isCompleting = false := by
        cases hr : rest.any isCompleting <;> simp [h1, hr] at h ⊢
      simp [bodyRun, bodyStep_not_completing k r op h1, ih k r h2]

theorem bodyRun_completing (ops : List BodyOp) (k : RequestIntercepter)
    (o : Nat) (h : ops.any isCompleting = true) :
    (bodyRun k ⟨o, true⟩ ops).k = (setModReq k o none).1 ∧
    (bodyRun k ⟨o, true⟩ ops).r = ⟨o, false⟩ ∧
    (bodyRun k ⟨o, true⟩ ops).tr.count Ev.callback = 1 ∧
    ∀ q, (bodyRun k ⟨o, true⟩ ops).tr.count (Ev.mapDelete q) =
      (setModReq k o none).2.count (Ev.mapDelete q) := by
  induction ops generalizing k with
  | nil => simp at h
  | cons op rest ih =>
      cases hop : isCompleting op with
      | true =>
          have hstep := bodyStep_completing k o op hop
          have hrest := bodyRun_fn_false rest (setModReq k o none).1
            ⟨o, false⟩ rfl
          refine ⟨?_, ?_, ?_, fun q => ?_⟩
          · simp [bodyRun, hstep, hrest]
          · simp [bodyRun, hstep, hrest]
          · cases op <;>
              simp [bodyRun, hstep, hrest, stepEv, List.count_cons,
                List.count_append, setModReq_tr_callback_count,
                count_map_stepEv]
          · cases op <;>
              simp [bodyRun, hstep, hrest, stepEv, List.count_cons,
                List.count_append, count_map_stepEv]
      | false =>
          have h2 : rest.any isCompleting = true := by
            rw [List.any_cons, hop] at h
            simpa using h
          have hstep := bodyStep_not_completing k ⟨o, true⟩ op hop
          have ihr := ih k h2
          refine ⟨?_, ?_, ?_, ?_⟩ <;>
            simp [bodyRun, hstep, List.count_cons, List.count_append,
              ihr.1, ihr.2.1, ihr.2.2.1]
          · cases op <;> simp [stepEv]
          · intro q
            rw [ihr.2.2.2 q]
            cases op <;> simp [stepEv]

/-! ## Lock-discipline lemmas -/

theorem lockOk_append (t1 t2 : List Ev) (b : Bool)
    (h1 : lockOk b t1 = true) (h2 : lockOk false t2 = true) :
    lockOk b (t1 ++ t2) = true := by
  induction t1 generalizing b with
  | nil =>
      simp [lockOk] at h1
      simp [h1, h2]
  | cons e rest ih =>
      rw [lockOk] at h1
      rcases Bool.and_eq_true_iff.1 h1 with ⟨ha, hr⟩
      rw [List.cons_append, lockOk, ha, Bool.true_and]
      exact ih _ hr

theorem lockOk_setModReq (k : RequestIntercepter) (orig : Nat)
    (m : Option Nat) : lockOk false (setModReq k orig m).2 = true := by
  cases hk : k.modReq <;> cases m <;>
    simp [setModReq, hk, lockOk, evAllowed, evNext]

theorem lockOk_bodyStep (k : RequestIntercepter) (r : onEOFReader)
    (op : BodyOp) : lockOk false (bodyStep k r op).tr = true := by
  cases op with
  | read n e =>
      by_cases he : e = ReadErr.eof
      · cases hf : r.fn <;>
          ·  simp [bodyStep, onEOFReader.Read, onEOFReader.runFunc, he, hf,
               lockOk, evAllowed, evNext]
             try exact lockOk_setModReq k r.orig none
      · simp [bodyStep, onEOFReader.Read, he, lockOk, evAllowed, evNext]
  | close e =>
      cases hf : r.fn <;>
        ·  simp [bodyStep, onEOFReader.Close, onEOFReader.runFunc, hf,
             lockOk, evAllowed, evNext]
           try exact lockOk_setModReq k r.orig none

theorem lockOk_bodyRun (ops : List BodyOp) (k : RequestIntercepter)
    (r : onEOFReader) : lockOk false (bodyRun k r ops).tr = true := by
  induction ops generalizing k r with
  | nil => simp [bodyRun, lockOk]
  | cons op rest ih =>
      rw [bodyRun]
      exact lockOk_append _ _ _ (lockOk_bodyStep k r op) (ih _ _)

theorem lockOk_RoundTrip (k : RequestIntercepter) (orig clone : Nat)
    (hasBody : Bool) (modRes sendRes : Option GoError) :
    lockOk false (RoundTrip k orig clone hasBody modRes sendRes).tr = true := by
  have hsend : lockOk false
      ([Ev.baseSend clone] ++ (if hasBody then [Ev.closeBodyByBase] else []))
      = true := by
    cases hasBody <;> simp [lockOk, evAllowed, evNext]
  cases modRes with
  | some e => cases hasBody <;> simp [RoundTrip, lockOk, evAllowed, evNext]
  | none =>
      cases sendRes with
      | none =>
          simp only [RoundTrip, lockOk, evAllowed, evNext, Bool.not_false,
            Bool.true_and]
          exact lockOk_append _ _ _ (lockOk_setModReq k orig (some clone))
            hsend
      | some e =>
          simp only [RoundTrip, lockOk, evAllowed, evNext, Bool.not_false,
            Bool.true_and]
          exact lockOk_append _ _ _
            (lockOk_append _ _ _ (lockOk_setModReq k orig (some clone)) hsend)
            (lockOk_setModReq _ orig none)

theorem lockOk_CancelRequest (k : RequestIntercepter) (hasCanceler : Bool)
    (req : Nat) : lockOk false (CancelRequest k hasCanceler req).2 = true := by
  cases hasCanceler <;> simp [CancelRequest, lockOk, evAllowed, evNext]

/-! ## `cloneRequest` lemmas -/

theorem validReqB_header (h : Heap) (r : Request) (href : Nat)
    (hv : validReqB h r = true) (hh : r.header = some href) :
    href < h.headers.length ∧
      ∀ e ∈ getHeaderMap h href, e.2 < h.slices.length := by
  rw [validReqB, hh] at hv
  rcases Bool.and_eq_true_iff.1 hv with ⟨hv1, _⟩
  rcases Bool.and_eq_true_iff.1 hv1 with ⟨hlt, hall⟩
  refine ⟨of_decide_eq_true hlt, fun e he => ?_⟩
  exact of_decide_eq_true (List.all_eq_true.1 hall e he)

theorem validReqB_url (h : Heap) (r : Request) (u : Nat)
    (hv : validReqB h r = true) (hu : r.url = some u) :
    u < h.urls.length := by
  rw [validReqB, hu] at hv
  rcases Bool.and_eq_true_iff.1 hv with ⟨_, hv2⟩
  exact of_decide_eq_true hv2

theorem copyEntries_headers (l : List (String × Nat)) (h : Heap) :
    (copyEntries h l).1.headers = h.headers := by
  induction l generalizing h with
  | nil => rfl
  | cons kv rest ih => simp [copyEntries, allocSlice, ih]

theorem copyEntries_urls (l : List (String × Nat)) (h : Heap) :
    (copyEntries h l).1.urls = h.urls := by
  induction l generalizing h with
  | nil => rfl
  | cons kv rest ih => simp [copyEntries, allocSlice, ih]

theorem copyEntries_slices (l : List (String × Nat)) (h : Heap) :
    ∃ ext, (copyEntries h l).1.slices = h.slices ++ ext := by
  induction l generalizing h with
  | nil => exact ⟨[], by simp [copyEntries]⟩
  | cons kv rest ih =>
      rcases ih { h with slices := h.slices ++ [getSlice h kv.2] } with ⟨ext, hx⟩
      refine ⟨getSlice h kv.2 :: ext, ?_⟩
      simp [copyEntries, allocSlice, hx]

theorem copyEntries_fresh (l : List (String × Nat)) (h : Heap) :
    ∀ e ∈ (copyEntries h l).2, h.slices.length ≤ e.2 := by
  induction l generalizing h with
  | nil => simp [copyEntries]
  | cons kv rest ih =>
      intro e he
      simp only [copyEntries, allocSlice, List.mem_cons] at he
      rcases he with he | he
      · rw [he]
      · have := ih { h with slices := h.slices ++ [getSlice h kv.2] } e he
        simp at this
        omega

theorem copyEntries_obs (l : List (String × Nat)) (h : Heap)
    (hb : ∀ e ∈ l, e.2 < h.slices.length) :
    (copyEntries h l).2.map (fun e => (e.1, getSlice (copyEntries h l).1 e.2))
      = l.map (fun e => (e.1, getSlice h e.2)) := by
  induction l generalizing h with
  | nil => rfl
  | cons kv rest ih =>
      have hkv : kv.2 < h.slices.length := hb kv (List.mem_cons_self kv rest)
      have hrest : ∀ e ∈ rest,
          e.2 < ({ h with slices := h.slices ++ [getSlice h kv.2] } : Heap).slices.length := by
        intro e he
        have := hb e (List.mem_cons_of_mem kv he)
        simp
        omega
      have ihr := ih { h with slices := h.slices ++ [getSlice h kv.2] } hrest
      rcases copyEntries_slices rest
          { h with slices := h.slices ++ [getSlice h kv.2] } with ⟨ext, hx⟩
      simp only [copyEntries, allocSlice, List.map_cons]
      have hhead : getSlice (copyEntries
          { h with slices := h.slices ++ [getSlice h kv.2] } rest).1
            h.slices.length = getSlice h kv.2 := by
        rw [getSlice, hx]
        simp only [List.append_assoc, List.singleton_append]
        exact getD_append_self h.slices (getSlice h kv.2) ext []
      rw [hhead, ihr]
      congr 1
      apply List.map_congr_left
      intro e he
      have hlt := hb e (List.mem_cons_of_mem kv he)
      simp only [Prod.mk.injEq, true_and]
      rw [getSlice, getSlice]
      exact List.getD_append _ _ _ _ hlt

theorem headerEntriesOf_valid (h : Heap) (r : Request)
    (hv : validReqB h r = true) :
    headerEntriesOf (allocHeader h []).1 r = headerEntriesOf h r := by
  cases hh : r.header with
  | none => simp [headerEntriesOf, hh]
  | some href =>
      have hlt := (validReqB_header h r href hv hh).1
      simp only [headerEntriesOf, hh, getHeaderMap, allocHeader]
      exact List.getD_append _ _ _ _ hlt

theorem getD_set_append {α : Type _} (l : List α) (a v d : α) :
    ((l ++ [a]).set l.length v).getD l.length d = v := by
  rw [set_append_len]
  exact getD_append_self l v [] d

theorem cloneRequest_master (h : Heap) (r : Request)
    (hv : validReqB h r = true) :
    ∃ ents ext,
      (cloneRequest h r).1.headers = h.headers ++ [ents] ∧
      (cloneRequest h r).1.slices = h.slices ++ ext ∧
      ((cloneRequest h r).1.urls = h.urls ∨
        ∃ uv, (cloneRequest h r).1.urls = h.urls ++ [uv]) ∧
      (cloneRequest h r).2 =
        { r with header := some h.headers.length,
                 url := r.url.map (fun _ => h.urls.length) } ∧
      headerEntriesOf (cloneRequest h r).1 (cloneRequest h r).2 = ents ∧
      (∀ e ∈ ents, h.slices.length ≤ e.2) ∧
      headerObs (cloneRequest h r).1 (cloneRequest h r).2 = headerObs h r ∧
      urlObs (cloneRequest h r).1 (cloneRequest h r).2 = urlObs h r := by
  have hent : headerEntriesOf ({ h with headers := h.headers ++ [[]] } : Heap) r
      = headerEntriesOf h r := headerEntriesOf_valid h r hv
  have hb0 : ∀ e ∈ headerEntriesOf ({ h with headers := h.headers ++ [[]] } : Heap) r,
      e.2 < ({ h with headers := h.headers ++ [[]] } : Heap).slices.length := by
    rw [hent]
    cases hh : r.header with
    | none => simp [headerEntriesOf, hh]
    | some href =>
        intro e he
        refine (validReqB_header h r href hv hh).2 e ?_
        simpa [headerEntriesOf, hh] using he
  obtain ⟨ext, hext⟩ := copyEntries_slices
    (headerEntriesOf ({ h with headers := h.headers ++ [[]] } : Heap) r)
    { h with headers := h.headers ++ [[]] }
  have fch := copyEntries_headers
    (headerEntriesOf ({ h with headers := h.headers ++ [[]] } : Heap) r)
    { h with headers := h.headers ++ [[]] }
  have fcu := copyEntries_urls
    (headerEntriesOf ({ h with headers := h.headers ++ [[]] } : Heap) r)
    { h with headers := h.headers ++ [[]] }
  have ffresh := copyEntries_fresh
    (headerEntriesOf ({ h with headers := h.headers ++ [[]] } : Heap) r)
    { h with headers := h.headers ++ [[]] }
  have fobs : (copyEntries ({ h with headers := h.headers ++ [[]] } : Heap)
        (headerEntriesOf ({ h with headers := h.headers ++ [[]] } : Heap) r)).2.map
        (fun e => (e.1, getSlice (copyEntries ({ h with headers := h.headers ++ [[]] } : Heap)
          (headerEntriesOf ({ h with headers := h.headers ++ [[]] } : Heap) r)).1 e.2))
      = headerObs h r := by
    rw [copyEntries_obs _ _ hb0, hent]
    rfl
  set E := (copyEntries ({ h with headers := h.headers ++ [[]] } : Heap)
    (headerEntriesOf ({ h with headers := h.headers ++ [[]] } : Heap) r)).2 with hEdef
  set C1 := (copyEntries ({ h with headers := h.headers ++ [[]] } : Heap)
    (headerEntriesOf ({ h with headers := h.headers ++ [[]] } : Heap) r)).1 with hC1def
  have hmap : (C1.headers.set h.headers.length E).getD h.headers.length [] = E := by
    rw [fch]
    exact getD_set_append _ _ _ _
  cases hu : r.url with
  | none =>
      refine ⟨E, ext, ?_, ?_, Or.inl ?_, ?_, ?_, ?_, ?_, ?_⟩
      · simp only [cloneRequest, hu]
        show C1.headers.set h.headers.length E = h.headers ++ [E]
        rw [fch]
        exact set_append_len _ _ _
      · simp only [cloneRequest, hu]
        show C1.slices = h.slices ++ ext
        exact hext
      · simp only [cloneRequest, hu]
        show C1.urls = h.urls
        exact fcu
      · simp only [cloneRequest, hu]
        rfl
      · simp only [cloneRequest, hu]
        show (C1.headers.set h.headers.length E).getD h.headers.length [] = E
        exact hmap
      · exact ffresh
      · simp only [cloneRequest, hu, headerObs]
        show ((C1.headers.set h.headers.length E).getD h.headers.length []).map
          (fun e => (e.1, getSlice C1 e.2)) = headerObs h r
        rw [hmap]
        exact fobs
      · simp only [cloneRequest, hu, urlObs]
        rfl
  | some u =>
      have hCu : getURL C1 u = getURL h u := by
        rw [getURL, getURL, fcu]
      refine ⟨E, ext, ?_, ?_, Or.inr ⟨getURL C1 u, ?_⟩, ?_, ?_, ?_, ?_, ?_⟩
      · simp only [cloneRequest, hu]
        show C1.headers.set h.headers.length E = h.headers ++ [E]
        rw [fch]
        exact set_append_len _ _ _
      · simp only [cloneRequest, hu]
        show C1.slices = h.slices ++ ext
        exact hext
      · simp only [cloneRequest, hu]
        show C1.urls ++ [getURL C1 u] = h.urls ++ [getURL C1 u]
        rw [fcu]
      · simp only [cloneRequest, hu, Option.map_some']
        show ({ r with header := some h.headers.length, url := some C1.urls.length } : Request)
          = { r with header := some h.headers.length, url := some h.urls.length }
        rw [fcu]
      · simp only [cloneRequest, hu]
        show (C1.headers.set h.headers.length E).getD h.headers.length [] = E
        exact hmap
      · exact ffresh
      · simp only [cloneRequest, hu, headerObs]
        show ((C1.headers.set h.headers.length E).getD h.headers.length []).map
          (fun e => (e.1, getSlice C1 e.2)) = headerObs h r
        rw [hmap]
        exact fobs
      · simp only [cloneRequest, hu, urlObs, Option.map_some']
        show some (getURL ({ C1 with urls := C1.urls ++ [getURL C1 u] } : Heap)
          C1.urls.length) = some (getURL h u)
        have hget : getURL ({ C1 with urls := C1.urls ++ [getURL C1 u] } : Heap)
            C1.urls.length = getURL C1 u := by
          rw [getURL]
          exact getD_append_self C1.urls (getURL C1 u) [] default
        rw [hget, hCu]

theorem applyMut_agrees (h₀ ht : Heap) (m : Mutation) (ha : AgreesBelow h₀ ht)
    (hf : freshMutB h₀ m = true) : AgreesBelow h₀ (applyMut ht m) := by
  obtain ⟨ha1, ha2, ha3⟩ := ha
  cases m with
  | header ref v =>
      have hle : h₀.headers.length ≤ ref := of_decide_eq_true hf
      refine ⟨fun i hi => ?_, ha2, ha3⟩
      show (ht.headers.set ref v).getD i [] = getHeaderMap h₀ i
      rw [getD_set_ne _ _ _ _ _ (by omega)]
      exact ha1 i hi
  | slice ref v =>
      have hle : h₀.slices.length ≤ ref := of_decide_eq_true hf
      refine ⟨ha1, fun i hi => ?_, ha3⟩
      show (ht.slices.set ref v).getD i [] = getSlice h₀ i
      rw [getD_set_ne _ _ _ _ _ (by omega)]
      exact ha2 i hi
  | url ref v =>
      have hle : h₀.urls.length ≤ ref := of_decide_eq_true hf
      refine ⟨ha1, ha2, fun i hi => ?_⟩
      show (ht.urls.set ref v).getD i default = getURL h₀ i
      rw [getD_set_ne _ _ _ _ _ (by omega)]
      exact ha3 i hi

theorem applyMuts_agrees (ms : List Mutation) (h₀ : Heap) :
    ∀ ht, AgreesBelow h₀ ht → ms.all (freshMutB h₀) = true →
      AgreesBelow h₀ (applyMuts ht ms) := by
  induction ms with
  | nil => exact fun ht ha _ => ha
  | cons m rest ih =>
      intro ht ha hall
      rw [List.all_cons] at hall
      rcases Bool.and_eq_true_iff.1 hall with ⟨h1, h2⟩
      exact ih (applyMut ht m) (applyMut_agrees h₀ ht m ha h1) h2

theorem obs_agrees (h₀ ht : Heap) (r : Request) (ha : AgreesBelow h₀ ht)
    (hv : validReqB h₀ r = true) :
    headerObs ht r = headerObs h₀ r ∧ urlObs ht r = urlObs h₀ r := by
  obtain ⟨ha1, ha2, ha3⟩ := ha
  constructor
  · rw [headerObs, headerObs]
    cases hh : r.header with
    | none => simp [headerEntriesOf, hh]
    | some href =>
        obtain ⟨hlt, hall⟩ := validReqB_header h₀ r href hv hh
        have hents : headerEntriesOf ht r = headerEntriesOf h₀ r := by
          simp only [headerEntriesOf, hh]
          exact ha1 href hlt
        rw [hents]
        apply List.map_congr_left
        intro e he
        have hee : e.2 < h₀.slices.length :=
          hall e (by simpa [headerEntriesOf, hh] using he)
        simp only [Prod.mk.injEq, true_and]
        exact ha2 e.2 hee
  · rw [urlObs, urlObs]
    cases hu : r.url with
    | none => simp [hu]
    | some u =>
        have hlt := validReqB_url h₀ r u hv hu
        simp only [hu, Option.map_some', Option.some.injEq]
        exact ha3 u hlt

theorem cloneRequest_agrees (h : Heap) (r : Request)
    (hv : validReqB h r = true) : AgreesBelow h (cloneRequest h r).1 := by
  obtain ⟨ents, ext, h1, h2, h3, _, _, _, _, _⟩ := cloneRequest_master h r hv
  refine ⟨fun i hi => ?_, fun i hi => ?_, fun i hi => ?_⟩
  · rw [getHeaderMap, getHeaderMap, h1]
    exact List.getD_append _ _ _ _ hi
  · rw [getSlice, getSlice, h2]
    exact List.getD_append _ _ _ _ hi
  · rcases h3 with h3 | ⟨uv, h3⟩
    · rw [getURL, getURL, h3]
    · rw [getURL, getURL, h3]
      exact List.getD_append _ _ _ _ hi

/-! ## Claim theorems -/

/-- C1: for every request `r` (with live references), `cloneRequest`
returns a clone whose scalar fields (method, protocol version,
cancellation context, body stream reference) equal `r`'s; whose header
collection is a deep copy — a freshly allocated container whose value
slices are all freshly allocated — equal in content to `r`'s; whose URL,
when present, is a freshly allocated copy equal in content to `r`'s; and
consequently any sequence of modifier mutations touching only fresh
references (in particular the clone's header map, its slices and its URL)
leaves the original request's observable headers and URL unchanged. -/
theorem claim_C1_cloneRequest_deep_copy (h : Heap) (r : Request)
    (hv : validReqB h r = true) :
    ((cloneRequest h r).2.method = r.method ∧
      (cloneRequest h r).2.proto = r.proto ∧
      (cloneRequest h r).2.ctx = r.ctx ∧
      (cloneRequest h r).2.body = r.body) ∧
    (∃ href2, (cloneRequest h r).2.header = some href2 ∧
      h.headers.length ≤ href2) ∧
    (∀ e ∈ headerEntriesOf (cloneRequest h r).1 (cloneRequest h r).2,
      h.slices.length ≤ e.2) ∧
    headerObs (cloneRequest h r).1 (cloneRequest h r).2 = headerObs h r ∧
    (r.url = none → (cloneRequest h r).2.url = none) ∧
    (∀ u, r.url = some u → ∃ u2, (cloneRequest h r).2.url = some u2 ∧
      h.urls.length ≤ u2 ∧
      urlObs (cloneRequest h r).1 (cloneRequest h r).2 = urlObs h r) ∧
    (∀ ms : List Mutation, ms.all (freshMutB h) = true →
      headerObs (applyMuts (cloneRequest h r).1 ms) r = headerObs h r ∧
      urlObs (applyMuts (cloneRequest h r).1 ms) r = urlObs h r) := by
  obtain ⟨ents, ext, h1, h2, h3, h4, h5, h6, h7, h8⟩ :=
    cloneRequest_master h r hv
  refine ⟨?_, ?_, ?_, h7, ?_, ?_, ?_⟩
  · rw [h4]
    exact ⟨rfl, rfl, rfl, rfl⟩
  · rw [h4]
    exact ⟨h.headers.length, rfl, Nat.le_refl _⟩
  · rw [h5]
    exact h6
  · intro hu
    rw [h4]
    simp [hu]
  · intro u hu
    refine ⟨h.urls.length, ?_, Nat.le_refl _, h8⟩
    rw [h4]
    simp [hu]
  · intro ms hms
    have ha := applyMuts_agrees ms h _ (cloneRequest_agrees h r hv) hms
    exact obs_agrees h _ r ha hv

/-- Witness for C1 at a concrete heap and request: cloning and then
mutating the clone's header map and URL value leaves the original's
observable headers and URL unchanged. -/
theorem claim_C1_witness :
    headerObs
      (applyMuts (cloneRequest ⟨[["a", "b"]], [[("K", 0)]], [⟨"http", "x", "/", "q"⟩]⟩
        ⟨"GET", "HTTP/1.1", 5, some 9, some 0, some 0⟩).1
        [Mutation.header 1 [("X", 7)], Mutation.url 1 ⟨"evil", "y", "/", "z"⟩])
      ⟨"GET", "HTTP/1.1", 5, some 9, some 0, some 0⟩
      = [("K", ["a", "b"])] ∧
    urlObs
      (applyMuts (cloneRequest ⟨[["a", "b"]], [[("K", 0)]], [⟨"http", "x", "/", "q"⟩]⟩
        ⟨"GET", "HTTP/1.1", 5, some 9, some 0, some 0⟩).1
        [Mutation.header 1 [("X", 7)], Mutation.url 1 ⟨"evil", "y", "/", "z"⟩])
      ⟨"GET", "HTTP/1.1", 5, some 9, some 0, some 0⟩
      = some ⟨"http", "x", "/", "q"⟩ := by
  have hc := (claim_C1_cloneRequest_deep_copy
    ⟨[["a", "b"]], [[("K", 0)]], [⟨"http", "x", "/", "q"⟩]⟩
    ⟨"GET", "HTTP/1.1", 5, some 9, some 0, some 0⟩ (by decide)).2.2.2.2.2.2
    [Mutation.header 1 [("X", 7)], Mutation.url 1 ⟨"evil", "y", "/", "z"⟩]
    (by decide)
  refine ⟨?_, ?_⟩
  · rw [hc.1]
    decide
  · rw [hc.2]
    decide

/-- C10: `cloneRequest` handles absent optional fields: a `nil` URL clones
to a `nil` URL, and a `nil` header map clones to a freshly allocated,
non-`nil`, empty header container. -/
theorem claim_C10_cloneRequest_nil_fields (h : Heap) (r : Request) :
    (r.url = none → (cloneRequest h r).2.url = none) ∧
    (r.header = none →
      (cloneRequest h r).2.header = some h.headers.length ∧
      headerObs (cloneRequest h r).1 (cloneRequest h r).2 = []) := by
  constructor
  · intro hu
    simp [cloneRequest, hu]
  · intro hh
    cases hu : r.url with
    | none =>
        constructor <;>
          simp [cloneRequest, hu, hh, headerEntriesOf, copyEntries,
            writeHeaderAt, headerObs, getHeaderMap, allocHeader,
            getD_set_append]
    | some u =>
        constructor <;>
          simp [cloneRequest, hu, hh, headerEntriesOf, copyEntries,
            writeHeaderAt, headerObs, getHeaderMap, allocHeader, allocURL,
            getD_set_append]

/-- Witness for C10 at a concrete heap and a request with `nil` URL and
`nil` header map. -/
theorem claim_C10_witness :
    (cloneRequest ⟨[["a"]], [[("K", 0)]], []⟩
      ⟨"GET", "HTTP/1.1", 3, none, none, none⟩).2.url = none ∧
    (cloneRequest ⟨[["a"]], [[("K", 0)]], []⟩
      ⟨"GET", "HTTP/1.1", 3, none, none, none⟩).2.header = some 1 ∧
    headerObs
      (cloneRequest ⟨[["a"]], [[("K", 0)]], []⟩
        ⟨"GET", "HTTP/1.1", 3, none, none, none⟩).1
      (cloneRequest ⟨[["a"]], [[("K", 0)]], []⟩
        ⟨"GET", "HTTP/1.1", 3, none, none, none⟩).2 = [] := by
  refine ⟨(claim_C10_cloneRequest_nil_fields _ _).1 rfl, ?_, ?_⟩
  · exact ((claim_C10_cloneRequest_nil_fields _ _).2 rfl).1
  · exact ((claim_C10_cloneRequest_nil_fields _ _).2 rfl).2

/-- C3: when the modifier fails, `RoundTrip` returns a nil response and
the error wrapped with the interception-failure context, leaves the
tracking map untouched (no write event, state unchanged), and never
invokes the base transport's send. -/
theorem claim_C3_modifier_failure (k : RequestIntercepter) (orig clone : Nat)
    (hasBody : Bool) (e : GoError) (sendRes : Option GoError) :
    (RoundTrip k orig clone hasBody (some e) sendRes).res =
      Except.error (GoError.wrapped "error while intercepting request" e) ∧
    (RoundTrip k orig clone hasBody (some e) sendRes).k = k ∧
    (RoundTrip k orig clone hasBody (some e) sendRes).tr.count
      (Ev.baseSend clone) = 0 ∧
    (∀ a b, (RoundTrip k orig clone hasBody (some e) sendRes).tr.count
      (Ev.mapWrite a b) = 0) ∧
    (∀ a, (RoundTrip k orig clone hasBody (some e) sendRes).tr.count
      (Ev.mapDelete a) = 0) := by
  cases hasBody <;>
    simp [RoundTrip, List.count_cons, List.count_append, List.count_nil]

/-- C4: when the base transport's send fails, `RoundTrip` returns exactly
that error value (not wrapped), the entry for the original request is
gone, and a previously empty tracking map is empty again. -/
theorem claim_C4_send_failure (k : RequestIntercepter) (orig clone : Nat)
    (hasBody : Bool) (e : GoError) :
    (RoundTrip k orig clone hasBody none (some e)).res = Except.error e ∧
    mapLookup (RoundTrip k orig clone hasBody none (some e)).k orig = none ∧
    (mapCount k = 0 →
      mapCount (RoundTrip k orig clone hasBody none (some e)).k = 0) := by
  have hk : (RoundTrip k orig clone hasBody none (some e)).k =
      (setModReq (setModReq k orig (some clone)).1 orig none).1 := by
    simp [RoundTrip]
  refine ⟨?_, ?_, ?_⟩
  · cases hasBody <;> simp [RoundTrip]
  · rw [hk, setModReq_delete_fst]
    exact lookupKey_eraseKey_self _ _
  · intro h0
    rcases mapCount_zero_cases k h0 with hkk | hkk <;>
      rw [hk, setModReq_delete_fst, setModReq_insert_fst] <;>
      simp [hkk, mapCount, insertKey, eraseKey, List.filter_cons]

/-- Witness for C4: a send failure with an initially empty map returns the
identical error and leaves the map empty. -/
theorem claim_C4_witness :
    (RoundTrip ⟨none⟩ 1 2 true none (some (GoError.msg "connection refused"))).res
      = Except.error (GoError.msg "connection refused") ∧
    mapLookup (RoundTrip ⟨none⟩ 1 2 true none
      (some (GoError.msg "connection refused"))).k 1 = none ∧
    mapCount (RoundTrip ⟨none⟩ 1 2 true none
      (some (GoError.msg "connection refused"))).k = 0 := by
  have hc := claim_C4_send_failure ⟨none⟩ 1 2 true
    (GoError.msg "connection refused")
  exact ⟨hc.1, hc.2.1, hc.2.2 rfl⟩

/-- C2: with an initially empty tracking map, the entry for the original
request is written after the modifier invocation and before the base
send; if the send fails the entry is deleted immediately (exactly one
delete, count back to zero); if the send succeeds the map holds exactly
the one entry until the wrapped body sees its first end-of-stream read or
close (in any interleaving containing one), after which the count is zero
and exactly one delete happened in total. -/
theorem claim_C2_tracking_lifecycle (k : RequestIntercepter)
    (orig clone : Nat) (hasBody : Bool) (sendRes : Option GoError)
    (ops : List BodyOp) (h0 : mapCount k = 0) :
    (∃ t1 t2 t3, (RoundTrip k orig clone hasBody none sendRes).tr =
        t1 ++ Ev.mapWrite orig clone :: t2 ++ Ev.baseSend clone :: t3 ∧
        Ev.intercept clone ∈ t1) ∧
    (∀ e, sendRes = some e →
        mapCount (RoundTrip k orig clone hasBody none (some e)).k = 0 ∧
        (RoundTrip k orig clone hasBody none (some e)).tr.count
          (Ev.mapDelete orig) = 1) ∧
    (sendRes = none →
        (RoundTrip k orig clone hasBody none none).res =
          Except.ok ⟨orig, true⟩ ∧
        mapCount (RoundTrip k orig clone hasBody none none).k = 1 ∧
        (ops.any isCompleting = true →
          mapCount (bodyRun (RoundTrip k orig clone hasBody none none).k
            ⟨orig, true⟩ ops).k = 0 ∧
          (RoundTrip k orig clone hasBody none none).tr.count
              (Ev.mapDelete orig) +
            (bodyRun (RoundTrip k orig clone hasBody none none).k
              ⟨orig, true⟩ ops).tr.count (Ev.mapDelete orig) = 1)) := by
  have hins : (setModReq k orig (some clone)).1 = ⟨some [(orig, clone)]⟩ := by
    rcases mapCount_zero_cases k h0 with hkk | hkk <;>
      simp [setModReq, hkk, insertKey, eraseKey]
  refine ⟨?_, ?_, ?_⟩
  · refine ⟨[Ev.intercept clone, Ev.lock] ++
      (if k.modReq = none then [Ev.mapAlloc] else []), [Ev.unlock],
      (if hasBody then [Ev.closeBodyByBase] else []) ++
        (match sendRes with
         | none => []
         | some _ => [Ev.lock, Ev.mapDelete orig, Ev.unlock]), ?_, ?_⟩
    · rcases mapCount_zero_cases k h0 with hkk | hkk <;>
        cases sendRes <;> cases hasBody <;>
        simp [RoundTrip, setModReq, hkk, insertKey, eraseKey]
    · simp
  · intro e hse
    have hk2 : (RoundTrip k orig clone hasBody none (some e)).k =
        (setModReq (setModReq k orig (some clone)).1 orig none).1 := by
      simp [RoundTrip]
    constructor
    · rw [hk2, hins, setModReq_delete_fst]
      simp [mapCount, eraseKey, List.filter_cons]
    · rcases mapCount_zero_cases k h0 with hkk | hkk <;> cases hasBody <;>
        simp [RoundTrip, setModReq, hkk, insertKey, eraseKey,
          List.count_cons, List.count_append]
  · intro _
    have hks : (RoundTrip k orig clone hasBody none none).k =
        ⟨some [(orig, clone)]⟩ := by
      rw [show (RoundTrip k orig clone hasBody none none).k =
        (setModReq k orig (some clone)).1 by simp [RoundTrip]]
      exact hins
    refine ⟨by simp [RoundTrip], by rw [hks]; simp [mapCount], ?_⟩
    intro hany
    obtain ⟨hbk, _, _, hbd⟩ :=
      bodyRun_completing ops ⟨some [(orig, clone)]⟩ orig hany
    rw [hks]
    constructor
    · rw [hbk, setModReq_delete_fst]
      simp [mapCount, eraseKey, List.filter_cons]
    · rw [hbd orig, setModReq_tr_delete_count]
      rcases mapCount_zero_cases k h0 with hkk | hkk <;> cases hasBody <;>
        simp [RoundTrip, setModReq, hkk, insertKey, eraseKey,
          List.count_cons, List.count_append]

/-- Witness for C2: concrete successful request whose body is read to
end-of-stream and then closed; the map count returns to zero with exactly
one delete. -/
theorem claim_C2_witness :
    mapCount (bodyRun (RoundTrip ⟨none⟩ 1 2 true none none).k ⟨1, true⟩
      [BodyOp.read 0 ReadErr.eof, BodyOp.close none]).k = 0 ∧
    (RoundTrip ⟨none⟩ 1 2 true none none).tr.count (Ev.mapDelete 1) +
      (bodyRun (RoundTrip ⟨none⟩ 1 2 true none none).k ⟨1, true⟩
        [BodyOp.read 0 ReadErr.eof, BodyOp.close none]).tr.count
        (Ev.mapDelete 1) = 1 := by
  have hc := claim_C2_tracking_lifecycle ⟨none⟩ 1 2 true none
    [BodyOp.read 0 ReadErr.eof, BodyOp.close none] rfl
  exact (hc.2.2 rfl).2.2 (by decide)

/-- C5: across any interleaving of reads (with any inner results) and
closes, the cleanup callback fires at most once; once it has fired the
stored reference is cleared, and a cleared reference never fires again. -/
theorem claim_C5_callback_at_most_once (k : RequestIntercepter)
    (r : onEOFReader) (ops : List BodyOp) :
    (bodyRun k r ops).tr.count Ev.callback ≤ 1 ∧
    ((bodyRun k r ops).tr.count Ev.callback = 1 →
      (bodyRun k r ops).r.fn = false) ∧
    (r.fn = false → (bodyRun k r ops).tr.count Ev.callback = 0) := by
  rcases r with ⟨o, fn⟩
  cases fn with
  | false =>
      have hrun := bodyRun_fn_false ops k ⟨o, false⟩ rfl
      rw [hrun]
      have hz : (ops.map stepEv).count Ev.callback = 0 :=
        count_map_stepEv ops Ev.callback (by simp) (by simp)
      exact ⟨by simp [hz], fun _ => rfl, fun _ => hz⟩
  | true =>
      cases hany : ops.any isCompleting with
      | false =>
          have hrun := bodyRun_no_completing ops k ⟨o, true⟩ hany
          rw [hrun]
          have hz : (ops.map stepEv).count Ev.callback = 0 :=
            count_map_stepEv ops Ev.callback (by simp) (by simp)
          refine ⟨by simp [hz], fun hcc => ?_, fun hfn => by cases hfn⟩
          rw [hz] at hcc
          cases hcc
      | true =>
          obtain ⟨_, hbr, hbc, _⟩ := bodyRun_completing ops k o hany
          refine ⟨le_of_eq hbc, fun _ => by rw [hbr], fun hfn => by cases hfn⟩

/-- Witness for C5: a body that reaches end-of-stream twice and is closed
still fires the callback exactly once, and a body with a cleared
reference fires it zero times. -/
theorem claim_C5_witness :
    (bodyRun ⟨some [(1, 2)]⟩ ⟨1, true⟩ [BodyOp.read 0 ReadErr.eof,
      BodyOp.read 0 ReadErr.eof, BodyOp.close none]).tr.count Ev.callback ≤ 1 ∧
    (bodyRun ⟨none⟩ ⟨1, false⟩ [BodyOp.close none]).tr.count Ev.callback = 0 :=
  ⟨(claim_C5_callback_at_most_once ⟨some [(1, 2)]⟩ ⟨1, true⟩
      [BodyOp.read 0 ReadErr.eof, BodyOp.read 0 ReadErr.eof,
        BodyOp.close none]).1,
   (claim_C5_callback_at_most_once ⟨none⟩ ⟨1, false⟩
      [BodyOp.close none]).2.2 rfl⟩

/-- C6: `Read` returns the inner stream's `(n, err)` unchanged, delegates
to the inner stream first, and triggers the one-shot callback exactly when
the inner result is end-of-stream (firing only if the reference is still
set); `Close` closes the inner stream first, then triggers the one-shot
callback, then returns the inner close error. -/
theorem claim_C6_body_delegation (k : RequestIntercepter) (r : onEOFReader)
    (n : Nat) (e : ReadErr) (ce : Option GoError) :
    ((r.Read k n e).n = n ∧ (r.Read k n e).e = e) ∧
    (r.Read k n e).tr.head? = some Ev.innerRead ∧
    (e = ReadErr.eof →
      (r.Read k n e).tr.count Ev.callback = (if r.fn then 1 else 0)) ∧
    (e ≠ ReadErr.eof → r.Read k n e = ⟨k, r, n, e, [Ev.innerRead]⟩) ∧
    ((r.Close k ce).e = ce ∧
      (r.Close k ce).tr.head? = some Ev.innerClose ∧
      (r.Close k ce).tr.count Ev.callback = (if r.fn then 1 else 0)) := by
  refine ⟨⟨?_, ?_⟩, ?_, ?_, ?_, ?_, ?_, ?_⟩ <;>
    by_cases he : e = ReadErr.eof <;> cases hf : r.fn <;>
      simp [onEOFReader.Read, onEOFReader.Close, onEOFReader.runFunc,
        he, hf, List.count_cons, setModReq_tr_callback_count]

/-- Witness for C6 at a concrete reader with the reference set: an
end-of-stream read returns `(5, eof)` and fires the callback once; a
close returns the inner error and fires the callback once. -/
theorem claim_C6_witness :
    (onEOFReader.Read ⟨1, true⟩ ⟨some [(1, 2)]⟩ 5 ReadErr.eof).n = 5 ∧
    (onEOFReader.Read ⟨1, true⟩ ⟨some [(1, 2)]⟩ 5 ReadErr.eof).tr.count
      Ev.callback = 1 ∧
    (onEOFReader.Close ⟨1, true⟩ ⟨some [(1, 2)]⟩ none).e = none ∧
    (onEOFReader.Close ⟨1, true⟩ ⟨some [(1, 2)]⟩ none).tr.count
      Ev.callback = 1 := by
  have hc := claim_C6_body_delegation ⟨some [(1, 2)]⟩ ⟨1, true⟩ 5
    ReadErr.eof none
  exact ⟨hc.1.1, hc.2.2.1 rfl, hc.2.2.2.2.1, hc.2.2.2.2.2.2⟩

/-- C7 counterexample: when the base transport lacks the cancel
capability, `CancelRequest` does not remove the tracking entry — the
state is unchanged and the entry is still present — contradicting the
claim that for every request the entry is looked up and removed. -/
theorem claim_C7_counterexample :
    (CancelRequest ⟨some [(1, 2)]⟩ false 1).1 = ⟨some [(1, 2)]⟩ ∧
    mapLookup (CancelRequest ⟨some [(1, 2)]⟩ false 1).1 1 = some 2 := by
  decide

/-- C7 amended: only when the base transport exposes the cancel
capability is the entry looked up and removed (under the mutex), and then
the cancellation is always forwarded with the looked-up modified request
(`nil` when no entry was found); when the capability is absent the call
is a complete no-op (state unchanged, no events, entry retained). -/
theorem claim_C7_amended_cancel (k : RequestIntercepter)
    (hasCanceler : Bool) (req : Nat) :
    (hasCanceler = true →
      mapLookup (CancelRequest k true req).1 req = none ∧
      (∀ q, q ≠ req →
        mapLookup (CancelRequest k true req).1 q = mapLookup k q) ∧
      (CancelRequest k true req).2 =
        [Ev.lock, Ev.mapRead req, Ev.mapDelete req, Ev.unlock,
          Ev.forwardCancel (mapLookup k req)]) ∧
    (hasCanceler = false → CancelRequest k false req = (k, [])) := by
  constructor
  · intro _
    refine ⟨?_, ?_, rfl⟩
    · cases hk : k.modReq with
      | none => simp [CancelRequest, mapLookup, hk]
      | some l =>
          simp [CancelRequest, mapLookup, hk]
          exact lookupKey_eraseKey_self l req
    · intro q hq
      cases hk : k.modReq with
      | none => simp [CancelRequest, mapLookup, hk]
      | some l =>
          simp [CancelRequest, mapLookup, hk]
          exact lookupKey_eraseKey_ne l req q hq
  · intro _
    rfl

/-- Witness for C7 amended: with the capability the entry is removed and
the modified request forwarded; without it the call is a no-op. -/
theorem claim_C7_witness :
    mapLookup (CancelRequest ⟨some [(1, 2)]⟩ true 1).1 1 = none ∧
    (CancelRequest ⟨some [(1, 2)]⟩ true 1).2 =
      [Ev.lock, Ev.mapRead 1, Ev.mapDelete 1, Ev.unlock,
        Ev.forwardCancel (some 2)] ∧
    CancelRequest ⟨some [(3, 4)]⟩ false 3 = (⟨some [(3, 4)]⟩, []) := by
  have hc := claim_C7_amended_cancel ⟨some [(1, 2)]⟩ true 1
  have hc2 := claim_C7_amended_cancel ⟨some [(3, 4)]⟩ false 3
  refine ⟨(hc.1 rfl).1, ?_, hc2.2 rfl⟩
  rw [(hc.1 rfl).2.2]
  rfl

/-- C8: a request body is closed exactly once: when the modifier fails
before dispatch the interceptor itself closes it (and the base send never
runs); once the base send has run (which owns and closes the body, per
the transport contract recorded at port.go:70) the interceptor does not
close it again; with no body nothing is closed. -/
theorem claim_C8_request_body_closed_once (k : RequestIntercepter)
    (orig clone : Nat) (modRes sendRes : Option GoError) :
    ((RoundTrip k orig clone true modRes sendRes).tr.count
        Ev.closeBodyByInterceptor +
      (RoundTrip k orig clone true modRes sendRes).tr.count
        Ev.closeBodyByBase = 1) ∧
    (∀ e, modRes = some e →
      (RoundTrip k orig clone true (some e) sendRes).tr.count
        Ev.closeBodyByInterceptor = 1 ∧
      (RoundTrip k orig clone true (some e) sendRes).tr.count
        (Ev.baseSend clone) = 0) ∧
    (modRes = none →
      (RoundTrip k orig clone true none sendRes).tr.count
        Ev.closeBodyByInterceptor = 0 ∧
      (RoundTrip k orig clone true none sendRes).tr.count
        (Ev.baseSend clone) = 1) ∧
    ((RoundTrip k orig clone false modRes sendRes).tr.count
        Ev.closeBodyByInterceptor = 0 ∧
      (RoundTrip k orig clone false modRes sendRes).tr.count
        Ev.closeBodyByBase = 0) := by
  refine ⟨?_, fun e _ => ?_, fun _ => ?_, ?_⟩ <;>
    cases hk : k.modReq <;> cases modRes <;> cases sendRes <;>
    simp [RoundTrip, setModReq, hk, List.count_cons, List.count_append]

/-- Witness for C8: with a body, a modifier failure closes the body in
the interceptor; a successful path closes it in the base transport
only. -/
theorem claim_C8_witness :
    (RoundTrip ⟨none⟩ 1 2 true (some (GoError.msg "nope")) none).tr.count
      Ev.closeBodyByInterceptor = 1 ∧
    (RoundTrip ⟨none⟩ 1 2 true none none).tr.count
      Ev.closeBodyByInterceptor = 0 ∧
    (RoundTrip ⟨none⟩ 1 2 true none none).tr.count (Ev.baseSend 2) = 1 := by
  have hc := claim_C8_request_body_closed_once ⟨none⟩ 1 2
    (some (GoError.msg "nope")) none
  have hc2 := claim_C8_request_body_closed_once ⟨none⟩ 1 2 none none
  exact ⟨(hc.2.1 (GoError.msg "nope") rfl).1, (hc2.2.2.1 rfl).1,
    (hc2.2.2.1 rfl).2⟩

/-- C9: every map read, write, delete and the lazy allocation — in
`RoundTrip`'s record/unrecord paths, in the body-cleanup callback and in
`CancelRequest` — happens with the mutex held, the mutex is held only
for the map operation itself (never across the base send, the modifier
invocation, or body reads/closes), and `setModReq` allocates the map
exactly when it is still `nil`, leaving it allocated. -/
theorem claim_C9_lock_discipline :
    (∀ (k : RequestIntercepter) (orig clone : Nat) (hasBody : Bool)
        (modRes sendRes : Option GoError),
      lockOk false (RoundTrip k orig clone hasBody modRes sendRes).tr
        = true) ∧
    (∀ (k : RequestIntercepter) (hasCanceler : Bool) (req : Nat),
      lockOk false (CancelRequest k hasCanceler req).2 = true) ∧
    (∀ (k : RequestIntercepter) (r : onEOFReader) (ops : List BodyOp),
      lockOk false (bodyRun k r ops).tr = true) ∧
    (∀ (k : RequestIntercepter) (orig : Nat) (m : Option Nat),
      (setModReq k orig m).2.count Ev.mapAlloc =
        (if k.modReq = none then 1 else 0) ∧
      (setModReq k orig m).1.modReq.isSome = true) :=
  ⟨fun k o c hb mr sr => lockOk_RoundTrip k o c hb mr sr,
   fun k hc req => lockOk_CancelRequest k hc req,
   fun k r ops => lockOk_bodyRun ops k r,
   fun k o m =>
     ⟨by cases hk : k.modReq <;> cases m <;>
        simp [setModReq, hk, List.count_cons, List.count_append],
      by cases hk : k.modReq <;> cases m <;> simp [setModReq, hk]⟩⟩

end Port
